import Mathlib

/-!
# Verification of `disks.hpp` (alternating disks problem)

A shallow embedding of the disk-row data structure and the two sorting
algorithms (`sort_alternate`, `sort_lawnmower`) of the repository, together
with proofs about them.

Modelling conventions:
* `std::vector<disk_color>` becomes `List disk_color`; `size_t` indices and
  counts become `Nat`.  Machine-width overflow (vectors beyond `2^63`
  elements, swap counters beyond `2^31`) is not modelled: all sizes in scope
  are idealized mathematical integers.
* C++ `assert` aborts are modelled as `Except` error results, one error
  constructor per failure class, as the design notes of the repository
  prescribe ("re-expressed as explicit error/result signaling").
* index-based `for` loops become fuel-indexed structural recursions where the
  fuel is the exact iteration count of the loop.
-/

inductive disk_color : Type where
  | DISK_LIGHT : disk_color
  | DISK_DARK : disk_color
deriving DecidableEq, Repr

open disk_color

/-- Shorthand for the colour vector of a row. -/
abbrev Row : Type := List disk_color

/-- `std::swap(_colors[j], _colors[j+1])`: exchange two adjacent entries.
Both reads happen on the original list. -/
def listSwap (s : Row) (j : Nat) : Row :=
  (s.set j (s.getD (j + 1) DISK_LIGHT)).set (j + 1) (s.getD j DISK_LIGHT)

/-- The private state of class `disk_state`: its `_colors` vector. -/
structure disk_state : Type where
  _colors : Row
deriving DecidableEq, Repr

/-- Error taxonomy of the specification: `ConstructionError` for a
non-positive disk count, `IndexOutOfRange` for an invalid `get`/`swap`
index.  The C++ source signals both through failed `assert`s. -/
inductive DiskError : Type where
  | constructionError : DiskError
  | indexOutOfRange : DiskError
deriving DecidableEq, Repr

deriving instance DecidableEq for Except

/-- `total_count()`: the length of the colour vector. -/
def disk_state.total_count (s : disk_state) : Nat :=
  s._colors.length

/-- `light_count()`: `total_count() / 2` (derived from the length, not
counted from the contents). -/
def disk_state.light_count (s : disk_state) : Nat :=
  s.total_count / 2

/-- `dark_count()`: equals `light_count()`. -/
def disk_state.dark_count (s : disk_state) : Nat :=
  s.light_count

/-- `is_index(i)`: `i < total_count()`. -/
def disk_state.is_index (s : disk_state) (i : Nat) : Bool :=
  decide (i < s.total_count)

/-- `get(index)`: `assert(is_index(index)); return _colors[index];`.
The assertion failure is modelled as an `IndexOutOfRange` error. -/
def disk_state.get (s : disk_state) (index : Nat) : Except DiskError disk_color :=
  if s.is_index index then .ok (s._colors.getD index DISK_LIGHT)
  else .error .indexOutOfRange

/-- `swap(left_index)`: asserts `is_index(left_index)` and
`is_index(left_index + 1)`, then exchanges the two adjacent entries. -/
def disk_state.swap (s : disk_state) (left_index : Nat) : Except DiskError disk_state :=
  if s.is_index left_index then
    if s.is_index (left_index + 1) then .ok ⟨listSwap s._colors left_index⟩
    else .error .indexOutOfRange
  else .error .indexOutOfRange

/-- `std::equal(first1, last1, first2)` — the three-iterator form used by
`operator==`.  It walks the first range; at each step it dereferences both
iterators.  If the second range is exhausted while the first still has
elements (and all compared so far were equal), it reads past the end of the
second range: undefined behaviour, modelled as `none`. -/
def stdEqual : Row → Row → Option Bool
  | [], _ => some true
  | _ :: _, [] => none
  | x :: xs, y :: ys => if x = y then stdEqual xs ys else some false

/-- `operator==(rhs)`: `std::equal(_colors.begin(), _colors.end(),
rhs._colors.begin())`.  Note that the length of `rhs` is never compared. -/
def disk_state.eqOp (s rhs : disk_state) : Option Bool :=
  stdEqual s._colors rhs._colors

/-- `to_string()`: "L"/"D" tokens in index order, single-space separated. -/
def disk_color.token : disk_color → String
  | DISK_LIGHT => "L"
  | DISK_DARK => "D"

/-- The rendering loop of `to_string` (first-flag plus separator) produces
exactly the space-intercalation of the tokens. -/
def disk_state.to_string (s : disk_state) : String :=
  String.intercalate " " (s._colors.map disk_color.token)

/-- `is_initialized()`: every even index is light and every odd index is
dark.  The C++ loop returns `false` at the first violation, which is the
same Boolean value as this bounded quantification. -/
def disk_state.is_initialized (s : disk_state) : Bool :=
  decide (∀ i, i < s.total_count →
    (i % 2 = 0 → s._colors.getD i DISK_LIGHT ≠ DISK_DARK) ∧
    (i % 2 ≠ 0 → s._colors.getD i DISK_LIGHT ≠ DISK_LIGHT))

/-- `is_sorted()`: no dark disk among the first `dark_count()` entries and
no light disk among entries `dark_count() .. 2*dark_count() - 1`. -/
def disk_state.is_sorted (s : disk_state) : Bool :=
  decide ((∀ i, i < s.dark_count → s._colors.getD i DISK_LIGHT ≠ DISK_DARK) ∧
    (∀ i, s.dark_count ≤ i → i < s.dark_count * 2 →
      s._colors.getD i DISK_LIGHT ≠ DISK_LIGHT))

/-- The constructor's darkening loop: `for (i = 1; i < size; i += 2)
_colors[i] = DISK_DARK;`.  `fuel` is the exact number of iterations the
loop performs (`size / 2`) and `i` the current index. -/
def darkenGo : Nat → Row → Nat → Row
  | 0, v, _ => v
  | fuel + 1, v, i => darkenGo fuel (v.set i DISK_DARK) (i + 2)

/-- The body of the `disk_state(size_t light_count)` constructor: a vector
of `light_count * 2` light disks, with every odd index turned dark.  The
darkening loop `i = 1, 3, … < light_count * 2` runs `light_count` times. -/
def mkInit (light_count : Nat) : disk_state :=
  ⟨darkenGo light_count (List.replicate (light_count * 2) DISK_LIGHT) 1⟩

/-- `construct(n)`: the constructor together with its
`assert(light_count > 0)`, re-expressed (per the repository's design notes)
as explicit error signaling over a signed integer count. -/
def construct (n : Int) : Except DiskError disk_state :=
  if 0 < n then .ok (mkInit n.toNat) else .error .constructionError

/-- Class `sorted_disks`: the final `disk_state` plus the swap count. -/
structure sorted_disks : Type where
  _after : disk_state
  _swap_count : Nat
deriving DecidableEq, Repr

/-- `after()` accessor. -/
def sorted_disks.after (r : sorted_disks) : disk_state :=
  r._after

/-- `swap_count()` accessor. -/
def sorted_disks.swap_count (r : sorted_disks) : Nat :=
  r._swap_count

/-!
## The two algorithms

Both algorithms only ever call `get`/`swap` at indices that are in range
(each loop bound keeps `j + 1 < total_count`), so the in-range reads are
modelled by `List.getD` and the in-range swap by `listSwap`.
-/

/-- One pass of `sort_alternate`:
`for (j = start; j < stop; j += 2) if (get(j)==DARK && get(j+1)==LIGHT) swap(j);`
`fuel` is the exact iteration count of the loop and `j` the current index. -/
def altPassGo : Nat → Row → Nat → Row × Nat
  | 0, s, _ => (s, 0)
  | fuel + 1, s, j =>
    if s.getD j DISK_LIGHT = DISK_DARK ∧ s.getD (j + 1) DISK_LIGHT = DISK_LIGHT then
      let r := altPassGo fuel (listSwap s j) (j + 2)
      (r.1, r.2 + 1)
    else
      altPassGo fuel s (j + 2)

/-- The outer loop of `sort_alternate`: `for (i = 0; i < n + 1; ++i)` with
an even-start pass (`j = 0, 2, … < n*2`, i.e. `n` iterations) for even `i`
and an odd-start pass (`j = 1, 3, … < n*2 - 2`, i.e. `n - 1` iterations)
for odd `i`.  `fuel` is the number of outer iterations left. -/
def altGo (n : Nat) : Nat → Nat → Row → Row × Nat
  | 0, _, s => (s, 0)
  | fuel + 1, i, s =>
    let p := if i % 2 = 0 then altPassGo n s 0 else altPassGo (n - 1) s 1
    let r := altGo n fuel (i + 1) p.1
    (r.1, p.2 + r.2)

/-- `sort_alternate(before)`: `n = total_count / 2`; if `n == 0` return the
row unchanged, otherwise run passes `i = 0 .. n` inclusive. -/
def sort_alternate (before : disk_state) : sorted_disks :=
  let n := before.total_count / 2
  if n = 0 then ⟨before, 0⟩
  else
    let r := altGo n (n + 1) 0 before._colors
    ⟨⟨r.1⟩, r.2⟩

/-- Forward sweep of `sort_lawnmower`:
`for (j = 0; j < 2*n - 1; ++j) if (get(j)==DARK && get(j+1)==LIGHT) swap(j);`
`fuel` is the remaining iteration count, `j` the current index. -/
def fwdGo : Nat → Row → Nat → Row × Nat
  | 0, s, _ => (s, 0)
  | fuel + 1, s, j =>
    if s.getD j DISK_LIGHT = DISK_DARK ∧ s.getD (j + 1) DISK_LIGHT = DISK_LIGHT then
      let r := fwdGo fuel (listSwap s j) (j + 1)
      (r.1, r.2 + 1)
    else
      fwdGo fuel s (j + 1)

/-- Backward sweep of `sort_lawnmower`:
`for (j = 2*n - 1; j > 0; --j) if (get(j)==LIGHT && get(j-1)==DARK) swap(j-1);`
The loop variable doubles as fuel: the sweep started at `j` performs
exactly `j` iterations (at indices `j, j-1, …, 1`). -/
def bwdGo : Row → Nat → Row × Nat
  | s, 0 => (s, 0)
  | s, j + 1 =>
    if s.getD (j + 1) DISK_LIGHT = DISK_LIGHT ∧ s.getD j DISK_LIGHT = DISK_DARK then
      let r := bwdGo (listSwap s j) j
      (r.1, r.2 + 1)
    else
      bwdGo s j

/-- One double-pass of `sort_lawnmower`: a forward sweep followed by a
backward sweep, both over `j`-ranges determined by `2*n - 1`.  Returns the
resulting row and the number of swaps of the double-pass; the C++
`hasSwap` flag is true exactly when that number is nonzero. -/
def doublePass (n : Nat) (s : Row) : Row × Nat :=
  let f := fwdGo (2 * n - 1) s 0
  let g := bwdGo f.1 (2 * n - 1)
  (g.1, f.2 + g.2)

/-- The outer loop of `sort_lawnmower`:
`for (i = 0; i < std::ceil((int)n / 2); ++i)`, breaking after any
double-pass that performed no swap.  Note `(int)n / 2` is C++ *integer*
division, so `std::ceil` is applied to an already-truncated quotient: the
bound is `n / 2` rounded *down*.  Returns the final row, the total swap
count and the number of double-passes executed (a swapless final
double-pass is counted: it did run before the break). -/
def lawnLoop (n : Nat) : Nat → Row → Row × Nat × Nat
  | 0, s => (s, 0, 0)
  | fuel + 1, s =>
    let p := doublePass n s
    if p.2 = 0 then (p.1, p.2, 1)
    else
      let r := lawnLoop n fuel p.1
      (r.1, p.2 + r.2.1, r.2.2 + 1)

/-- `sort_lawnmower(before)`: `n = total_count / 2`, then up to `n / 2`
double-passes (see `lawnLoop` for the `std::ceil` analysis). -/
def sort_lawnmower (before : disk_state) : sorted_disks :=
  let n := before.total_count / 2
  let r := lawnLoop n (n / 2) before._colors
  ⟨⟨r.1⟩, r.2.1⟩

/-- The number of double-passes `sort_lawnmower` executes on `before`. -/
def lawn_passes (before : disk_state) : Nat :=
  let n := before.total_count / 2
  (lawnLoop n (n / 2) before._colors).2.2

/-- The row after `k` double-passes (ignoring the early-termination break),
used to state which double-pass the early termination fires on. -/
def dpIter (n : Nat) : Nat → Row → Row
  | 0, s => s
  | k + 1, s => dpIter n k (doublePass n s).1

/-- Apply a sequence of `swap` calls left to right, failing if any fails. -/
def swapSeq (s : disk_state) : List Nat → Except DiskError disk_state
  | [] => .ok s
  | i :: rest => do swapSeq (← s.swap i) rest

/-!
## Canonical row shapes

`wRow a m b` is `a` light disks, then `m` dark-light pairs, then `b` dark
disks.  The canonical initialized row of `2n` disks is `wRow 1 (n-1) 1`,
the sorted row is `wRow n 0 n`, and every intermediate state of either
algorithm on a canonical input has this shape.
-/

/-- `m` copies of the pair dark-light. -/
def altDL : Nat → Row
  | 0 => []
  | m + 1 => DISK_DARK :: DISK_LIGHT :: altDL m

/-- `m` copies of the pair light-dark; `altLD n` is the canonical
initialized row of `2n` disks. -/
def altLD : Nat → Row
  | 0 => []
  | m + 1 => DISK_LIGHT :: DISK_DARK :: altLD m

/-- `a` lights, `m` dark-light pairs, `b` darks (nested so that the light
prefix is the head of the outer append). -/
def wRow (a m b : Nat) : Row :=
  List.replicate a DISK_LIGHT ++ (altDL m ++ List.replicate b DISK_DARK)

/-- The triangular number `d * (d + 1) / 2`, as a recursion: the total swap
count of both algorithms on a canonical row of `2n` disks is `tri (n-1)`. -/
def tri : Nat → Nat
  | 0 => 0
  | d + 1 => (d + 1) + tri d

/-!
## List surgery helpers
-/

lemma getD_append_add (pre l : Row) (k : Nat) (d : disk_color) :
    (pre ++ l).getD (pre.length + k) d = l.getD k d := by
  rw [List.getD_append_right _ _ _ _ (Nat.le_add_right _ _), Nat.add_sub_cancel_left]

lemma getD_append_lt (pre l : Row) (i : Nat) (d : disk_color) (h : i < pre.length) :
    (pre ++ l).getD i d = pre.getD i d :=
  List.getD_append _ _ _ _ h

lemma set_append_add (pre l : Row) (k : Nat) (v : disk_color) :
    (pre ++ l).set (pre.length + k) v = pre ++ l.set k v := by
  rw [List.set_append, if_neg (by omega), Nat.add_sub_cancel_left]

lemma listSwap_append (pre : Row) (x y : disk_color) (suf : Row) :
    listSwap (pre ++ x :: y :: suf) pre.length = pre ++ y :: x :: suf := by
  have h0 : (pre ++ x :: y :: suf).getD pre.length DISK_LIGHT = x := by
    simpa using getD_append_add pre (x :: y :: suf) 0 DISK_LIGHT
  have h1 : (pre ++ x :: y :: suf).getD (pre.length + 1) DISK_LIGHT = y := by
    simpa using getD_append_add pre (x :: y :: suf) 1 DISK_LIGHT
  have e0 : (pre ++ x :: y :: suf).set pre.length y = pre ++ y :: y :: suf := by
    simp
  have e1 : (pre ++ y :: y :: suf).set (pre.length + 1) x = pre ++ y :: x :: suf := by
    simp
  unfold listSwap
  rw [h1, h0, e0, e1]

lemma listSwap_length (l : Row) (j : Nat) : (listSwap l j).length = l.length := by
  simp [listSwap]

lemma exists_two_split (l : Row) (j : Nat) (h : j + 1 < l.length) :
    ∃ pre x y suf, l = pre ++ x :: y :: suf ∧ pre.length = j := by
  induction l generalizing j with
  | nil => simp at h
  | cons a t ih =>
    cases j with
    | zero =>
      cases t with
      | nil => simp at h
      | cons b u => exact ⟨[], a, b, u, rfl, rfl⟩
    | succ j2 =>
      obtain ⟨pre, x, y, suf, he, hl⟩ := ih j2 (by simpa using Nat.lt_of_succ_lt_succ h)
      exact ⟨a :: pre, x, y, suf, by rw [he]; rfl, by simp [hl]⟩

lemma getD_replicate (c d : disk_color) (n i : Nat) (h : i < n) :
    (List.replicate n c).getD i d = c := by
  rw [List.getD_eq_getElem _ _ (by simpa using h)]
  simp

lemma light_of_ne_dark (c : disk_color) (h : c ≠ DISK_DARK) : c = DISK_LIGHT := by
  cases c
  · rfl
  · exact absurd rfl h

lemma dark_of_ne_light (c : disk_color) (h : c ≠ DISK_LIGHT) : c = DISK_DARK := by
  cases c
  · exact absurd rfl h
  · rfl

/-!
## The alternating patterns and the `wRow` normal form
-/

lemma altDL_length (m : Nat) : (altDL m).length = 2 * m := by
  induction m with
  | zero => rfl
  | succ m ih => simp [altDL, ih]; omega

lemma altLD_length (m : Nat) : (altLD m).length = 2 * m := by
  induction m with
  | zero => rfl
  | succ m ih => simp [altLD, ih]; omega

lemma altDL_snoc (m : Nat) : altDL (m + 1) = altDL m ++ [DISK_DARK, DISK_LIGHT] := by
  induction m with
  | zero => rfl
  | succ m ih =>
    calc altDL (m + 2) = DISK_DARK :: DISK_LIGHT :: altDL (m + 1) := rfl
    _ = DISK_DARK :: DISK_LIGHT :: (altDL m ++ [DISK_DARK, DISK_LIGHT]) := by rw [ih]
    _ = altDL (m + 1) ++ [DISK_DARK, DISK_LIGHT] := rfl

lemma altLD_snoc (m : Nat) : altLD (m + 1) = altLD m ++ [DISK_LIGHT, DISK_DARK] := by
  induction m with
  | zero => rfl
  | succ m ih =>
    calc altLD (m + 2) = DISK_LIGHT :: DISK_DARK :: altLD (m + 1) := rfl
    _ = DISK_LIGHT :: DISK_DARK :: (altLD m ++ [DISK_LIGHT, DISK_DARK]) := by rw [ih]
    _ = altLD (m + 1) ++ [DISK_LIGHT, DISK_DARK] := rfl

lemma altLD_shift (m : Nat) :
    altLD (m + 1) = DISK_LIGHT :: (altDL m ++ [DISK_DARK]) := by
  induction m with
  | zero => rfl
  | succ m ih => simp [altLD, altDL] at ih ⊢; rw [ih]

lemma altDL_getD (m : Nat) : ∀ (i : Nat) (d : disk_color), i < 2 * m →
    (altDL m).getD i d = if i % 2 = 0 then DISK_DARK else DISK_LIGHT := by
  induction m with
  | zero => intro i d h; omega
  | succ m ih =>
    intro i d h
    match i with
    | 0 => simp [altDL]
    | 1 => simp [altDL]
    | (k + 2) =>
      have hk : k < 2 * m := by omega
      have e : (altDL (m + 1)).getD (k + 2) d = (altDL m).getD k d := by
        simp [altDL]
      rw [e, ih k d hk, Nat.add_mod_right]

lemma altLD_getD (m : Nat) : ∀ (i : Nat) (d : disk_color), i < 2 * m →
    (altLD m).getD i d = if i % 2 = 0 then DISK_LIGHT else DISK_DARK := by
  induction m with
  | zero => intro i d h; omega
  | succ m ih =>
    intro i d h
    match i with
    | 0 => simp [altLD]
    | 1 => simp [altLD]
    | (k + 2) =>
      have hk : k < 2 * m := by omega
      have e : (altLD (m + 1)).getD (k + 2) d = (altLD m).getD k d := by
        simp [altLD]
      rw [e, ih k d hk, Nat.add_mod_right]

lemma wRow_length (a m b : Nat) : (wRow a m b).length = a + 2 * m + b := by
  simp [wRow, altDL_length]; omega

lemma wRow_getD_lt (a m b i : Nat) (d : disk_color) (h : i < a) :
    (wRow a m b).getD i d = DISK_LIGHT := by
  unfold wRow
  rw [getD_append_lt _ _ _ _ (by simpa using h), getD_replicate _ _ _ _ h]

lemma wRow_getD_mid (a m b i : Nat) (d : disk_color) (h1 : a ≤ i) (h2 : i < a + 2 * m) :
    (wRow a m b).getD i d = if (i - a) % 2 = 0 then DISK_DARK else DISK_LIGHT := by
  unfold wRow
  obtain ⟨k, rfl⟩ : ∃ k, i = a + k := ⟨i - a, by omega⟩
  have e1 : (List.replicate a DISK_LIGHT ++ (altDL m ++ List.replicate b DISK_DARK)).getD
      (a + k) d = (altDL m ++ List.replicate b DISK_DARK).getD k d := by
    have := getD_append_add (List.replicate a DISK_LIGHT)
      (altDL m ++ List.replicate b DISK_DARK) k d
    simpa using this
  rw [e1, getD_append_lt _ _ _ _ (by rw [altDL_length]; omega),
    altDL_getD m k d (by omega), Nat.add_sub_cancel_left]

lemma wRow_getD_hi (a m b i : Nat) (d : disk_color) (h1 : a + 2 * m ≤ i)
    (h2 : i < a + 2 * m + b) :
    (wRow a m b).getD i d = DISK_DARK := by
  unfold wRow
  obtain ⟨k, rfl⟩ : ∃ k, i = a + (2 * m + k) := ⟨i - a - 2 * m, by omega⟩
  have e1 : (List.replicate a DISK_LIGHT ++ (altDL m ++ List.replicate b DISK_DARK)).getD
      (a + (2 * m + k)) d = (altDL m ++ List.replicate b DISK_DARK).getD (2 * m + k) d := by
    have := getD_append_add (List.replicate a DISK_LIGHT)
      (altDL m ++ List.replicate b DISK_DARK) (2 * m + k) d
    simpa using this
  have e2 : (altDL m ++ List.replicate b DISK_DARK).getD (2 * m + k) d =
      (List.replicate b DISK_DARK).getD k d := by
    have := getD_append_add (altDL m) (List.replicate b DISK_DARK) k d
    rwa [altDL_length] at this
  rw [e1, e2, getD_replicate _ _ _ _ (by omega)]

lemma altLD_as_wRow (m : Nat) : altLD (m + 1) = wRow 1 m 1 := by
  rw [altLD_shift]
  unfold wRow
  simp

lemma wRow_shift (a m b : Nat) (hm : 1 ≤ m) :
    List.replicate a DISK_LIGHT ++ (altLD m ++ List.replicate b DISK_DARK) =
      wRow (a + 1) (m - 1) (b + 1) := by
  obtain ⟨m2, rfl⟩ : ∃ m2, m = m2 + 1 := ⟨m - 1, by omega⟩
  rw [altLD_shift]
  unfold wRow
  simp [List.replicate_succ' a DISK_LIGHT, List.replicate_succ]

/-!
## Skip lemmas: loop segments in which the swap condition never fires
-/

lemma altPassGo_skip (t : Nat) : ∀ (fuel : Nat) (s : Row) (j : Nat),
    (∀ u, u < t → ¬(s.getD (j + 2 * u) DISK_LIGHT = DISK_DARK ∧
      s.getD (j + 2 * u + 1) DISK_LIGHT = DISK_LIGHT)) →
    altPassGo (t + fuel) s j = altPassGo fuel s (j + 2 * t) := by
  induction t with
  | zero => intro fuel s j _; simp
  | succ t ih =>
    intro fuel s j h
    have e : t + 1 + fuel = (t + fuel) + 1 := by omega
    rw [e]
    have h0 := h 0 (by omega)
    simp only [Nat.mul_zero, Nat.add_zero] at h0
    rw [altPassGo, if_neg h0]
    have step := ih fuel s (j + 2) (fun u hu => by
      have hx := h (u + 1) (by omega)
      have e1 : j + 2 * (u + 1) = j + 2 + 2 * u := by omega
      rw [e1] at hx
      exact hx)
    rw [step]
    congr 1
    omega

lemma altPassGo_noswap (t : Nat) (s : Row) (j : Nat)
    (h : ∀ u, u < t → ¬(s.getD (j + 2 * u) DISK_LIGHT = DISK_DARK ∧
      s.getD (j + 2 * u + 1) DISK_LIGHT = DISK_LIGHT)) :
    altPassGo t s j = (s, 0) := by
  have := altPassGo_skip t 0 s j h
  simpa using this

lemma fwdGo_skip (t : Nat) : ∀ (fuel : Nat) (s : Row) (j : Nat),
    (∀ u, u < t → ¬(s.getD (j + u) DISK_LIGHT = DISK_DARK ∧
      s.getD (j + u + 1) DISK_LIGHT = DISK_LIGHT)) →
    fwdGo (t + fuel) s j = fwdGo fuel s (j + t) := by
  induction t with
  | zero => intro fuel s j _; simp
  | succ t ih =>
    intro fuel s j h
    have e : t + 1 + fuel = (t + fuel) + 1 := by omega
    rw [e]
    have h0 := h 0 (by omega)
    simp only [Nat.add_zero] at h0
    rw [fwdGo, if_neg h0]
    have step := ih fuel s (j + 1) (fun u hu => by
      have hx := h (u + 1) (by omega)
      have e1 : j + (u + 1) = j + 1 + u := by omega
      rw [e1] at hx
      exact hx)
    rw [step]
    congr 1
    omega

lemma fwdGo_noswap (t : Nat) (s : Row) (j : Nat)
    (h : ∀ u, u < t → ¬(s.getD (j + u) DISK_LIGHT = DISK_DARK ∧
      s.getD (j + u + 1) DISK_LIGHT = DISK_LIGHT)) :
    fwdGo t s j = (s, 0) := by
  have := fwdGo_skip t 0 s j h
  simpa using this

lemma bwdGo_skip (t : Nat) : ∀ (s : Row) (j : Nat), t ≤ j →
    (∀ u, u < t → ¬(s.getD (j - u) DISK_LIGHT = DISK_LIGHT ∧
      s.getD (j - u - 1) DISK_LIGHT = DISK_DARK)) →
    bwdGo s j = bwdGo s (j - t) := by
  induction t with
  | zero => intro s j _ _; simp
  | succ t ih =>
    intro s j ht h
    obtain ⟨j2, rfl⟩ : ∃ j2, j = j2 + 1 := ⟨j - 1, by omega⟩
    have h0 := h 0 (by omega)
    simp only [Nat.sub_zero] at h0
    have h0' : ¬(s.getD (j2 + 1) DISK_LIGHT = DISK_LIGHT ∧
        s.getD j2 DISK_LIGHT = DISK_DARK) := by
      intro hc
      exact h0 ⟨hc.1, by simpa using hc.2⟩
    rw [bwdGo, if_neg h0']
    have step := ih s j2 (by omega) (fun u hu => by
      have hx := h (u + 1) (by omega)
      have e1 : j2 + 1 - (u + 1) = j2 - u := by omega
      rw [e1] at hx
      exact hx)
    rw [step]
    congr 1
    omega

/-!
## Mid lemmas: the effect of each loop on a block of dark-light pairs

Each sweep turns a maximal block of `m` dark-light pairs into `m`
light-dark pairs, performing exactly `m` swaps, and then continues.
-/

lemma altPassGo_mid (m : Nat) : ∀ (fuel : Nat) (pre suf : Row),
    altPassGo (m + fuel) (pre ++ (altDL m ++ suf)) pre.length =
      ((altPassGo fuel (pre ++ (altLD m ++ suf)) (pre.length + 2 * m)).1,
       (altPassGo fuel (pre ++ (altLD m ++ suf)) (pre.length + 2 * m)).2 + m) := by
  induction m with
  | zero => intro fuel pre suf; simp [altDL, altLD]
  | succ m ih =>
    intro fuel pre suf
    have hsh : pre ++ (altDL (m + 1) ++ suf) =
        pre ++ DISK_DARK :: DISK_LIGHT :: (altDL m ++ suf) := by
      simp [altDL]
    have hD : (pre ++ (altDL (m + 1) ++ suf)).getD pre.length DISK_LIGHT = DISK_DARK := by
      rw [hsh]
      simpa using getD_append_add pre (DISK_DARK :: DISK_LIGHT :: (altDL m ++ suf)) 0 DISK_LIGHT
    have hL : (pre ++ (altDL (m + 1) ++ suf)).getD (pre.length + 1) DISK_LIGHT
        = DISK_LIGHT := by
      rw [hsh]
      simpa using getD_append_add pre (DISK_DARK :: DISK_LIGHT :: (altDL m ++ suf)) 1 DISK_LIGHT
    have e : m + 1 + fuel = (m + fuel) + 1 := by omega
    rw [e, altPassGo, if_pos ⟨hD, hL⟩]
    have hswap : listSwap (pre ++ (altDL (m + 1) ++ suf)) pre.length =
        (pre ++ [DISK_LIGHT, DISK_DARK]) ++ (altDL m ++ suf) := by
      rw [hsh, listSwap_append]
      simp
    rw [hswap]
    have hidx : pre.length + 2 = (pre ++ [DISK_LIGHT, DISK_DARK] : Row).length := by simp
    rw [hidx, ih fuel (pre ++ [DISK_LIGHT, DISK_DARK]) suf]
    have hback : (pre ++ [DISK_LIGHT, DISK_DARK]) ++ (altLD m ++ suf) =
        pre ++ (altLD (m + 1) ++ suf) := by
      simp [altLD]
    have hidx2 : (pre ++ [DISK_LIGHT, DISK_DARK] : Row).length + 2 * m =
        pre.length + 2 * (m + 1) := by
      simp
      omega
    rw [hback, hidx2]
    simp [Nat.add_assoc]

lemma fwdGo_mid (m : Nat) : ∀ (fuel : Nat) (pre suf : Row), 1 ≤ m →
    fwdGo (2 * m - 1 + fuel) (pre ++ (altDL m ++ suf)) pre.length =
      ((fwdGo fuel (pre ++ (altLD m ++ suf)) (pre.length + (2 * m - 1))).1,
       (fwdGo fuel (pre ++ (altLD m ++ suf)) (pre.length + (2 * m - 1))).2 + m) := by
  induction m with
  | zero => intro _ _ _ h; omega
  | succ m ih =>
    intro fuel pre suf _
    have hsh : pre ++ (altDL (m + 1) ++ suf) =
        pre ++ DISK_DARK :: DISK_LIGHT :: (altDL m ++ suf) := by
      simp [altDL]
    have hD : (pre ++ (altDL (m + 1) ++ suf)).getD pre.length DISK_LIGHT = DISK_DARK := by
      rw [hsh]
      simpa using getD_append_add pre (DISK_DARK :: DISK_LIGHT :: (altDL m ++ suf)) 0 DISK_LIGHT
    have hL : (pre ++ (altDL (m + 1) ++ suf)).getD (pre.length + 1) DISK_LIGHT
        = DISK_LIGHT := by
      rw [hsh]
      simpa using getD_append_add pre (DISK_DARK :: DISK_LIGHT :: (altDL m ++ suf)) 1 DISK_LIGHT
    have hswap : listSwap (pre ++ (altDL (m + 1) ++ suf)) pre.length =
        (pre ++ [DISK_LIGHT, DISK_DARK]) ++ (altDL m ++ suf) := by
      rw [hsh, listSwap_append]
      simp
    by_cases hm : m = 0
    · subst hm
      have e : 2 * 1 - 1 + fuel = fuel + 1 := by omega
      rw [e, fwdGo, if_pos ⟨hD, hL⟩, hswap]
      have hback : (pre ++ [DISK_LIGHT, DISK_DARK]) ++ (altDL 0 ++ suf) =
          pre ++ (altLD 1 ++ suf) := by
        simp [altLD, altDL]
      have hidx : pre.length + 1 = pre.length + (2 * 1 - 1) := by omega
      rw [hback, hidx]
    · have hm1 : 1 ≤ m := by omega
      have e : 2 * (m + 1) - 1 + fuel = ((2 * m - 1 + fuel) + 1) + 1 := by omega
      rw [e, fwdGo, if_pos ⟨hD, hL⟩, hswap]
      -- second iteration: reads dark, dark — no swap
      obtain ⟨m2, rfl⟩ : ∃ m2, m = m2 + 1 := ⟨m - 1, by omega⟩
      have hD1 : ((pre ++ [DISK_LIGHT, DISK_DARK]) ++ (altDL (m2 + 1) ++ suf)).getD
          (pre.length + 2) DISK_LIGHT = DISK_DARK := by
        have hidx : pre.length + 2 = (pre ++ [DISK_LIGHT, DISK_DARK] : Row).length + 0 := by
          simp
        rw [hidx, getD_append_add]
        simp [altDL]
      have hno : ¬(((pre ++ [DISK_LIGHT, DISK_DARK]) ++ (altDL (m2 + 1) ++ suf)).getD
            (pre.length + 1) DISK_LIGHT = DISK_DARK ∧
          ((pre ++ [DISK_LIGHT, DISK_DARK]) ++ (altDL (m2 + 1) ++ suf)).getD
            (pre.length + 1 + 1) DISK_LIGHT = DISK_LIGHT) := by
        intro hc
        rw [show pre.length + 1 + 1 = pre.length + 2 from by omega] at hc
        rw [hD1] at hc
        exact absurd hc.2 (by simp)
      rw [fwdGo, if_neg hno]
      have hidx : pre.length + 1 + 1 = (pre ++ [DISK_LIGHT, DISK_DARK] : Row).length := by
        simp
      rw [hidx, ih fuel (pre ++ [DISK_LIGHT, DISK_DARK]) suf hm1]
      have hback : (pre ++ [DISK_LIGHT, DISK_DARK]) ++ (altLD (m2 + 1) ++ suf) =
          pre ++ (altLD (m2 + 1 + 1) ++ suf) := by
        simp [altLD]
      have hidx2 : (pre ++ [DISK_LIGHT, DISK_DARK] : Row).length + (2 * (m2 + 1) - 1) =
          pre.length + (2 * (m2 + 1 + 1) - 1) := by
        simp
        omega
      rw [hback, hidx2]
      simp [Nat.add_assoc]

lemma bwdGo_mid (m : Nat) : ∀ (pre suf : Row), 1 ≤ m →
    bwdGo (pre ++ (altDL m ++ suf)) (pre.length + (2 * m - 1)) =
      ((bwdGo (pre ++ (altLD m ++ suf)) pre.length).1,
       (bwdGo (pre ++ (altLD m ++ suf)) pre.length).2 + m) := by
  induction m with
  | zero => intro _ _ h; omega
  | succ m ih =>
    intro pre suf _
    by_cases hm : m = 0
    · subst hm
      have hsh : pre ++ (altDL 1 ++ suf) =
          pre ++ DISK_DARK :: DISK_LIGHT :: suf := by
        simp [altDL]
      have hD : (pre ++ (altDL 1 ++ suf)).getD pre.length DISK_LIGHT = DISK_DARK := by
        rw [hsh]
        simpa using getD_append_add pre (DISK_DARK :: DISK_LIGHT :: suf) 0 DISK_LIGHT
      have hL : (pre ++ (altDL 1 ++ suf)).getD (pre.length + 1) DISK_LIGHT = DISK_LIGHT := by
        rw [hsh]
        simpa using getD_append_add pre (DISK_DARK :: DISK_LIGHT :: suf) 1 DISK_LIGHT
      have e : pre.length + (2 * 1 - 1) = pre.length + 1 := by omega
      rw [e, bwdGo, if_pos ⟨hL, hD⟩]
      have hswap : listSwap (pre ++ (altDL 1 ++ suf)) pre.length =
          pre ++ (altLD 1 ++ suf) := by
        rw [hsh, listSwap_append]
        simp [altLD]
      rw [hswap]
    · have hm1 : 1 ≤ m := by omega
      -- view the block as its first m pairs followed by its last pair
      have hview : pre ++ (altDL (m + 1) ++ suf) =
          (pre ++ altDL m) ++ (DISK_DARK :: DISK_LIGHT :: suf) := by
        rw [altDL_snoc]
        simp
      have hplen : (pre ++ altDL m : Row).length = pre.length + 2 * m := by
        simp [altDL_length]
      have hD : (pre ++ (altDL (m + 1) ++ suf)).getD (pre.length + 2 * m) DISK_LIGHT
          = DISK_DARK := by
        rw [hview, ← hplen]
        simpa using getD_append_add (pre ++ altDL m)
          (DISK_DARK :: DISK_LIGHT :: suf) 0 DISK_LIGHT
      have hL : (pre ++ (altDL (m + 1) ++ suf)).getD (pre.length + 2 * m + 1) DISK_LIGHT
          = DISK_LIGHT := by
        rw [hview, ← hplen]
        simpa using getD_append_add (pre ++ altDL m)
          (DISK_DARK :: DISK_LIGHT :: suf) 1 DISK_LIGHT
      have e : pre.length + (2 * (m + 1) - 1) = (pre.length + 2 * m) + 1 := by omega
      rw [e, bwdGo, if_pos ⟨hL, hD⟩]
      have hswap : listSwap (pre ++ (altDL (m + 1) ++ suf)) (pre.length + 2 * m) =
          pre ++ (altDL m ++ (DISK_LIGHT :: DISK_DARK :: suf)) := by
        rw [hview, ← hplen, listSwap_append]
        simp
      rw [hswap]
      -- the step down to the last light of the remaining block does not swap
      have e2 : pre.length + 2 * m = (pre.length + (2 * m - 1)) + 1 := by omega
      have hL2 : (pre ++ (altDL m ++ (DISK_LIGHT :: DISK_DARK :: suf))).getD
          (pre.length + (2 * m - 1)) DISK_LIGHT = DISK_LIGHT := by
        have h1 : (pre ++ (altDL m ++ (DISK_LIGHT :: DISK_DARK :: suf))).getD
            (pre.length + (2 * m - 1)) DISK_LIGHT =
            (altDL m ++ (DISK_LIGHT :: DISK_DARK :: suf)).getD (2 * m - 1) DISK_LIGHT :=
          getD_append_add pre _ (2 * m - 1) DISK_LIGHT
        have h2 : (altDL m ++ (DISK_LIGHT :: DISK_DARK :: suf)).getD (2 * m - 1)
            DISK_LIGHT = (altDL m).getD (2 * m - 1) DISK_LIGHT :=
          getD_append_lt _ _ _ _ (by rw [altDL_length]; omega)
        rw [h1, h2, altDL_getD m (2 * m - 1) DISK_LIGHT (by omega), if_neg (by omega)]
      have hno : ¬((pre ++ (altDL m ++ (DISK_LIGHT :: DISK_DARK :: suf))).getD
            ((pre.length + (2 * m - 1)) + 1) DISK_LIGHT = DISK_LIGHT ∧
          (pre ++ (altDL m ++ (DISK_LIGHT :: DISK_DARK :: suf))).getD
            (pre.length + (2 * m - 1)) DISK_LIGHT = DISK_DARK) := by
        intro hc
        rw [hL2] at hc
        exact absurd hc.2 (by simp)
      rw [e2, bwdGo, if_neg hno]
      rw [ih pre (DISK_LIGHT :: DISK_DARK :: suf) hm1]
      have hback : pre ++ (altLD m ++ (DISK_LIGHT :: DISK_DARK :: suf)) =
          pre ++ (altLD (m + 1) ++ suf) := by
        rw [altLD_snoc]
        simp
      rw [hback]
      simp [Nat.add_assoc]

lemma altPassGo_mid2 (m fuel : Nat) (pre suf : Row) (q : Nat) (hq : q = pre.length) :
    altPassGo (m + fuel) (pre ++ (altDL m ++ suf)) q =
      ((altPassGo fuel (pre ++ (altLD m ++ suf)) (q + 2 * m)).1,
       (altPassGo fuel (pre ++ (altLD m ++ suf)) (q + 2 * m)).2 + m) := by
  subst hq
  exact altPassGo_mid m fuel pre suf

lemma fwdGo_mid2 (m fuel : Nat) (pre suf : Row) (q : Nat) (hq : q = pre.length)
    (hm : 1 ≤ m) :
    fwdGo (2 * m - 1 + fuel) (pre ++ (altDL m ++ suf)) q =
      ((fwdGo fuel (pre ++ (altLD m ++ suf)) (q + (2 * m - 1))).1,
       (fwdGo fuel (pre ++ (altLD m ++ suf)) (q + (2 * m - 1))).2 + m) := by
  subst hq
  exact fwdGo_mid m fuel pre suf hm

lemma bwdGo_mid2 (m : Nat) (pre suf : Row) (q : Nat) (hq : q = pre.length) (hm : 1 ≤ m) :
    bwdGo (pre ++ (altDL m ++ suf)) (q + (2 * m - 1)) =
      ((bwdGo (pre ++ (altLD m ++ suf)) q).1,
       (bwdGo (pre ++ (altLD m ++ suf)) q).2 + m) := by
  subst hq
  exact bwdGo_mid m pre suf hm

/-!
## Closed forms of the two lawnmower sweeps on `wRow` states
-/

lemma fwdSweep_wRow_pos (n a m b : Nat) (ha : 1 ≤ a) (hb : 1 ≤ b) (hm : 1 ≤ m)
    (hlen : a + 2 * m + b = 2 * n) :
    fwdGo (2 * n - 1) (wRow a m b) 0 = (wRow (a + 1) (m - 1) (b + 1), m) := by
  have e : 2 * n - 1 = a + (2 * m - 1 + b) := by omega
  rw [e]
  rw [fwdGo_skip a (2 * m - 1 + b) (wRow a m b) 0 (fun u hu => by
    intro hc
    rw [wRow_getD_lt a m b (0 + u) DISK_LIGHT (by omega)] at hc
    exact absurd hc.1 (by simp))]
  have hw : wRow a m b =
      List.replicate a DISK_LIGHT ++ (altDL m ++ List.replicate b DISK_DARK) := rfl
  rw [hw, show (0 : Nat) + a = a from by omega,
    fwdGo_mid2 m b (List.replicate a DISK_LIGHT) (List.replicate b DISK_DARK) a
      (by simp) hm]
  rw [wRow_shift a m b hm]
  rw [fwdGo_noswap b (wRow (a + 1) (m - 1) (b + 1)) (a + (2 * m - 1)) (fun u hu => by
    intro hc
    have e2 : a + (2 * m - 1) + u + 1 = a + 2 * m + u := by omega
    rw [e2, wRow_getD_hi (a + 1) (m - 1) (b + 1) (a + 2 * m + u) DISK_LIGHT
      (by omega) (by omega)] at hc
    exact absurd hc.2 (by simp))]
  simp

lemma fwdSweep_wRow_zero (n a b : Nat) (ha : 1 ≤ a) (hb : 1 ≤ b)
    (hlen : a + b = 2 * n) :
    fwdGo (2 * n - 1) (wRow a 0 b) 0 = (wRow a 0 b, 0) := by
  have e : 2 * n - 1 = a + (b - 1) := by omega
  rw [e]
  rw [fwdGo_skip a (b - 1) (wRow a 0 b) 0 (fun u hu => by
    intro hc
    rw [wRow_getD_lt a 0 b (0 + u) DISK_LIGHT (by omega)] at hc
    exact absurd hc.1 (by simp))]
  rw [fwdGo_noswap (b - 1) (wRow a 0 b) (0 + a) (fun u hu => by
    intro hc
    rw [wRow_getD_hi a 0 b (0 + a + u + 1) DISK_LIGHT (by omega) (by omega)] at hc
    exact absurd hc.2 (by simp))]

lemma bwdSweep_wRow_pos (n a m b : Nat) (ha : 1 ≤ a) (hm : 1 ≤ m)
    (hlen : a + 2 * m + b = 2 * n) :
    bwdGo (wRow a m b) (2 * n - 1) = (wRow (a + 1) (m - 1) (b + 1), m) := by
  rw [bwdGo_skip b (wRow a m b) (2 * n - 1) (by omega) (fun u hu => by
    intro hc
    rw [wRow_getD_hi a m b (2 * n - 1 - u) DISK_LIGHT (by omega) (by omega)] at hc
    exact absurd hc.1 (by simp))]
  have hw : wRow a m b =
      List.replicate a DISK_LIGHT ++ (altDL m ++ List.replicate b DISK_DARK) := rfl
  rw [show 2 * n - 1 - b = a + (2 * m - 1) from by omega, hw,
    bwdGo_mid2 m (List.replicate a DISK_LIGHT) (List.replicate b DISK_DARK) a
      (by simp) hm]
  rw [wRow_shift a m b hm]
  rw [bwdGo_skip a (wRow (a + 1) (m - 1) (b + 1)) a (by omega) (fun u hu => by
    intro hc
    rw [wRow_getD_lt (a + 1) (m - 1) (b + 1) (a - u - 1) DISK_LIGHT (by omega)] at hc
    exact absurd hc.2 (by simp))]
  simp [bwdGo]

lemma bwdSweep_wRow_zero (n a b : Nat) (ha : 1 ≤ a) (hlen : a + b = 2 * n) :
    bwdGo (wRow a 0 b) (2 * n - 1) = (wRow a 0 b, 0) := by
  rw [bwdGo_skip b (wRow a 0 b) (2 * n - 1) (by omega) (fun u hu => by
    intro hc
    rw [wRow_getD_hi a 0 b (2 * n - 1 - u) DISK_LIGHT (by omega) (by omega)] at hc
    exact absurd hc.1 (by simp))]
  rw [bwdGo_skip (a - 1) (wRow a 0 b) (2 * n - 1 - b) (by omega) (fun u hu => by
    intro hc
    rw [wRow_getD_lt a 0 b (2 * n - 1 - b - u - 1) DISK_LIGHT (by omega)] at hc
    exact absurd hc.2 (by simp))]
  rw [show 2 * n - 1 - b - (a - 1) = 0 from by omega]
  simp [bwdGo]

lemma tri_step (m : Nat) (hm : 2 ≤ m) : tri m = 2 * m - 1 + tri (m - 2) := by
  obtain ⟨d, rfl⟩ : ∃ d, m = d + 2 := ⟨m - 2, by omega⟩
  show tri (d + 2) = 2 * (d + 2) - 1 + tri d
  rw [tri, tri]
  omega

lemma tri_closed (d : Nat) : tri d = (d + 1) * d / 2 := by
  induction d with
  | zero => rfl
  | succ d ih =>
    rw [tri, ih]
    have hy : (d + 1 + 1) * (d + 1) = (d + 1) * d + 2 * (d + 1) := by ring
    have h2 : 2 ∣ (d + 1) * d := by
      rcases Nat.even_or_odd d with h | h
      · exact Dvd.dvd.mul_left h.two_dvd (d + 1)
      · exact Dvd.dvd.mul_right (Odd.add_one h).two_dvd d
    omega

/-!
## Double-pass closed forms and the lawnmower loop
-/

lemma doublePass_wRow_two (n a m : Nat) (ha : 1 ≤ a) (hm : 2 ≤ m)
    (hlen : a + 2 * m + a = 2 * n) :
    doublePass n (wRow a m a) = (wRow (a + 2) (m - 2) (a + 2), 2 * m - 1) := by
  have hf := fwdSweep_wRow_pos n a m a ha (by omega) (by omega) hlen
  have hb := bwdSweep_wRow_pos n (a + 1) (m - 1) (a + 1) (by omega) (by omega) (by omega)
  have e1 : a + 1 + 1 = a + 2 := by omega
  have e2 : m - 1 - 1 = m - 2 := by omega
  have e3 : m + (m - 1) = 2 * m - 1 := by omega
  simp [doublePass, hf, hb, e1, e2, e3]

lemma doublePass_wRow_one (n a : Nat) (ha : 1 ≤ a) (hlen : a + 2 * 1 + a = 2 * n) :
    doublePass n (wRow a 1 a) = (wRow (a + 1) 0 (a + 1), 1) := by
  have hf := fwdSweep_wRow_pos n a 1 a ha (by omega) (by omega) hlen
  have hb := bwdSweep_wRow_zero n (a + 1) (a + 1) (by omega) (by omega)
  simp [doublePass, hf, hb]

lemma doublePass_wRow_zero (n a : Nat) (ha : 1 ≤ a) (hlen : a + a = 2 * n) :
    doublePass n (wRow a 0 a) = (wRow a 0 a, 0) := by
  have hf := fwdSweep_wRow_zero n a a ha ha (by omega)
  have hb := bwdSweep_wRow_zero n a a ha (by omega)
  simp [doublePass, hf, hb]

lemma lawnLoop_wRow (h : Nat) : ∀ (a m : Nat), 1 ≤ a →
    (m = 2 * h ∨ (m = 2 * h - 1 ∧ 1 ≤ m)) →
    lawnLoop (a + m) h (wRow a m a) = (wRow (a + m) 0 (a + m), tri m, h) := by
  induction h with
  | zero =>
    intro a m ha hm
    have hm0 : m = 0 := by omega
    subst hm0
    simp [lawnLoop, tri]
  | succ h ih =>
    intro a m ha hm
    by_cases h1 : m = 1
    · subst h1
      have h0 : h = 0 := by omega
      subst h0
      simp [lawnLoop, tri, doublePass_wRow_one (a + 1) a ha (by omega)]
    · have hge : 2 ≤ m := by omega
      rw [lawnLoop, doublePass_wRow_two (a + m) a m ha hge (by omega)]
      have hr := ih (a + 2) (m - 2) (by omega) (by omega)
      rw [show a + 2 + (m - 2) = a + m from by omega] at hr
      have e3 : 2 * m - 1 + tri (m - 2) = tri m := (tri_step m hge).symm
      have hne : ¬((wRow (a + 2) (m - 2) (a + 2), 2 * m - 1).2 = 0) := by
        simp
        omega
      rw [if_neg hne]
      simp [hr, e3]

/-!
## The four kinds of `sort_alternate` passes on a `wRow` state

A pass whose starting parity matches the light-prefix length swaps every
dark-light pair of the middle block; a pass whose parity does not match
leaves the state unchanged.
-/

lemma evenPass_wRow_pos (n a m b : Nat) (_ha : 1 ≤ a) (hpar : a % 2 = 0) (hm : 1 ≤ m)
    (hlen : a + 2 * m + b = 2 * n) :
    altPassGo n (wRow a m b) 0 = (wRow (a + 1) (m - 1) (b + 1), m) := by
  have e : n = a / 2 + (m + b / 2) := by omega
  rw [e]
  rw [altPassGo_skip (a / 2) (m + b / 2) (wRow a m b) 0 (fun u hu => by
    intro hc
    rw [wRow_getD_lt a m b (0 + 2 * u) DISK_LIGHT (by omega)] at hc
    exact absurd hc.1 (by simp))]
  have hw : wRow a m b =
      List.replicate a DISK_LIGHT ++ (altDL m ++ List.replicate b DISK_DARK) := rfl
  rw [show (0 : Nat) + 2 * (a / 2) = a from by omega, hw,
    altPassGo_mid2 m (b / 2) (List.replicate a DISK_LIGHT)
      (List.replicate b DISK_DARK) a (by simp)]
  rw [wRow_shift a m b hm]
  rw [altPassGo_noswap (b / 2) (wRow (a + 1) (m - 1) (b + 1)) (a + 2 * m) (fun u hu => by
    intro hc
    rw [wRow_getD_hi (a + 1) (m - 1) (b + 1) (a + 2 * m + 2 * u + 1) DISK_LIGHT
      (by omega) (by omega)] at hc
    exact absurd hc.2 (by simp))]
  simp

lemma evenPass_wRow_zero (n a b : Nat) (_ha : 1 ≤ a) (hpar : a % 2 = 0)
    (hlen : a + b = 2 * n) :
    altPassGo n (wRow a 0 b) 0 = (wRow a 0 b, 0) := by
  have e : n = a / 2 + b / 2 := by omega
  rw [e]
  rw [altPassGo_skip (a / 2) (b / 2) (wRow a 0 b) 0 (fun u hu => by
    intro hc
    rw [wRow_getD_lt a 0 b (0 + 2 * u) DISK_LIGHT (by omega)] at hc
    exact absurd hc.1 (by simp))]
  rw [altPassGo_noswap (b / 2) (wRow a 0 b) (0 + 2 * (a / 2)) (fun u hu => by
    intro hc
    rw [wRow_getD_hi a 0 b (0 + 2 * (a / 2) + 2 * u + 1) DISK_LIGHT
      (by omega) (by omega)] at hc
    exact absurd hc.2 (by simp))]

lemma oddPass_wRow_pos (n a m b : Nat) (hpar : a % 2 = 1) (hm : 1 ≤ m)
    (hlen : a + 2 * m + b = 2 * n) :
    altPassGo (n - 1) (wRow a m b) 1 = (wRow (a + 1) (m - 1) (b + 1), m) := by
  have e : n - 1 = (a - 1) / 2 + (m + (b - 1) / 2) := by omega
  rw [e]
  rw [altPassGo_skip ((a - 1) / 2) (m + (b - 1) / 2) (wRow a m b) 1 (fun u hu => by
    intro hc
    rw [wRow_getD_lt a m b (1 + 2 * u) DISK_LIGHT (by omega)] at hc
    exact absurd hc.1 (by simp))]
  have hw : wRow a m b =
      List.replicate a DISK_LIGHT ++ (altDL m ++ List.replicate b DISK_DARK) := rfl
  rw [show (1 : Nat) + 2 * ((a - 1) / 2) = a from by omega, hw,
    altPassGo_mid2 m ((b - 1) / 2) (List.replicate a DISK_LIGHT)
      (List.replicate b DISK_DARK) a (by simp)]
  rw [wRow_shift a m b hm]
  rw [altPassGo_noswap ((b - 1) / 2) (wRow (a + 1) (m - 1) (b + 1)) (a + 2 * m)
    (fun u hu => by
      intro hc
      rw [wRow_getD_hi (a + 1) (m - 1) (b + 1) (a + 2 * m + 2 * u + 1) DISK_LIGHT
        (by omega) (by omega)] at hc
      exact absurd hc.2 (by simp))]
  simp

lemma oddPass_wRow_zero (n a b : Nat) (hpar : a % 2 = 1) (hlen : a + b = 2 * n) :
    altPassGo (n - 1) (wRow a 0 b) 1 = (wRow a 0 b, 0) := by
  have e : n - 1 = (a - 1) / 2 + (b - 1) / 2 := by omega
  rw [e]
  rw [altPassGo_skip ((a - 1) / 2) ((b - 1) / 2) (wRow a 0 b) 1 (fun u hu => by
    intro hc
    rw [wRow_getD_lt a 0 b (1 + 2 * u) DISK_LIGHT (by omega)] at hc
    exact absurd hc.1 (by simp))]
  rw [altPassGo_noswap ((b - 1) / 2) (wRow a 0 b) (1 + 2 * ((a - 1) / 2)) (fun u hu => by
    intro hc
    rw [wRow_getD_hi a 0 b (1 + 2 * ((a - 1) / 2) + 2 * u + 1) DISK_LIGHT
      (by omega) (by omega)] at hc
    exact absurd hc.2 (by simp))]

lemma evenPass_wRow_mismatch (n a m b : Nat) (hpar : a % 2 = 1)
    (hlen : a + 2 * m + b = 2 * n) :
    altPassGo n (wRow a m b) 0 = (wRow a m b, 0) := by
  rw [altPassGo_noswap n (wRow a m b) 0 (fun u hu => by
    intro hc
    by_cases h1 : 2 * u < a
    · rw [wRow_getD_lt a m b (0 + 2 * u) DISK_LIGHT (by omega)] at hc
      exact absurd hc.1 (by simp)
    · by_cases h2 : 2 * u < a + 2 * m
      · rw [wRow_getD_mid a m b (0 + 2 * u) DISK_LIGHT (by omega) (by omega),
          if_neg (by omega)] at hc
        exact absurd hc.1 (by simp)
      · rw [wRow_getD_hi a m b (0 + 2 * u + 1) DISK_LIGHT (by omega) (by omega)] at hc
        exact absurd hc.2 (by simp))]

lemma oddPass_wRow_mismatch (n a m b : Nat) (hpar : a % 2 = 0)
    (hlen : a + 2 * m + b = 2 * n) :
    altPassGo (n - 1) (wRow a m b) 1 = (wRow a m b, 0) := by
  rw [altPassGo_noswap (n - 1) (wRow a m b) 1 (fun u hu => by
    intro hc
    by_cases h1 : 1 + 2 * u < a
    · rw [wRow_getD_lt a m b (1 + 2 * u) DISK_LIGHT (by omega)] at hc
      exact absurd hc.1 (by simp)
    · by_cases h2 : 1 + 2 * u < a + 2 * m
      · rw [wRow_getD_mid a m b (1 + 2 * u) DISK_LIGHT (by omega) (by omega),
          if_neg (by omega)] at hc
        exact absurd hc.1 (by simp)
      · rw [wRow_getD_hi a m b (1 + 2 * u + 1) DISK_LIGHT (by omega) (by omega)] at hc
        exact absurd hc.2 (by simp))]

lemma tri_succ (m : Nat) (hm : 1 ≤ m) : m + tri (m - 1) = tri m := by
  obtain ⟨d, rfl⟩ : ∃ d, m = d + 1 := ⟨m - 1, by omega⟩
  rw [tri]
  simp

/-!
## The `sort_alternate` outer loop on canonical states
-/

lemma altGo_wRow (k : Nat) : ∀ (i n : Nat), 1 ≤ i → i ≤ n → i + k = n + 1 →
    altGo n k i (wRow i (n - i) i) = (wRow n 0 n, tri (n - i)) := by
  induction k with
  | zero => intro i n h1 h2 h3; omega
  | succ k ih =>
    intro i n h1 h2 h3
    by_cases hin : i = n
    · subst hin
      have hk : k = 0 := by omega
      subst hk
      rw [altGo, show i - i = 0 from by omega]
      by_cases hp : i % 2 = 0
      · rw [if_pos hp, evenPass_wRow_zero i i i (by omega) hp (by omega)]
        simp [altGo, tri]
      · rw [if_neg hp, oddPass_wRow_zero i i i (by omega) (by omega)]
        simp [altGo, tri]
    · have hlt : i < n := by omega
      have hm : 1 ≤ n - i := by omega
      have hr := ih (i + 1) n (by omega) (by omega) (by omega)
      rw [show n - (i + 1) = n - i - 1 from by omega] at hr
      have hcount : (n - i) + tri (n - i - 1) = tri (n - i) := tri_succ (n - i) hm
      rw [altGo]
      by_cases hp : i % 2 = 0
      · rw [if_pos hp, evenPass_wRow_pos n i (n - i) i (by omega) hp hm (by omega)]
        simp [hr, hcount]
      · rw [if_neg hp,
          oddPass_wRow_pos n i (n - i) i (by omega) hm (by omega)]
        simp [hr, hcount]

/-!
## The constructor produces the canonical alternating row
-/

lemma darkenGo_replicate (k : Nat) : ∀ (pre : Row),
    darkenGo k (pre ++ List.replicate (2 * k) DISK_LIGHT) (pre.length + 1) =
      pre ++ altLD k := by
  induction k with
  | zero => intro pre; simp [darkenGo, altLD]
  | succ k ih =>
    intro pre
    have hrep : List.replicate (2 * (k + 1)) DISK_LIGHT =
        DISK_LIGHT :: DISK_LIGHT :: List.replicate (2 * k) DISK_LIGHT := by
      rw [show 2 * (k + 1) = 2 * k + 1 + 1 from by omega]
      rw [List.replicate_succ, List.replicate_succ]
    rw [hrep, darkenGo]
    have hset : (pre ++ DISK_LIGHT :: DISK_LIGHT :: List.replicate (2 * k) DISK_LIGHT).set
        (pre.length + 1) DISK_DARK =
        (pre ++ [DISK_LIGHT, DISK_DARK]) ++ List.replicate (2 * k) DISK_LIGHT := by
      rw [set_append_add pre
        (DISK_LIGHT :: DISK_LIGHT :: List.replicate (2 * k) DISK_LIGHT) 1 DISK_DARK]
      simp
    rw [hset]
    have hidx : pre.length + 1 + 2 = (pre ++ [DISK_LIGHT, DISK_DARK] : Row).length + 1 := by
      simp
    rw [hidx, ih (pre ++ [DISK_LIGHT, DISK_DARK])]
    simp [altLD]

lemma mkInit_colors (k : Nat) : (mkInit k)._colors = altLD k := by
  have h := darkenGo_replicate k []
  simp only [List.nil_append, List.length_nil] at h
  show darkenGo k (List.replicate (k * 2) DISK_LIGHT) 1 = altLD k
  rw [show k * 2 = 2 * k from by omega]
  rw [show (1 : Nat) = 0 + 1 from rfl]
  exact h

lemma mk_colors (l : Row) : (disk_state.mk l)._colors = l := rfl

lemma mkInit_total (k : Nat) : (mkInit k).total_count = 2 * k := by
  rw [disk_state.total_count, mkInit_colors, altLD_length]

/-!
## Sorted states
-/

lemma wRow_dark_count (n : Nat) : (disk_state.mk (wRow n 0 n)).dark_count = n := by
  rw [disk_state.dark_count, disk_state.light_count, disk_state.total_count, mk_colors,
    wRow_length]
  omega

lemma wRow_state_sorted (n : Nat) : (disk_state.mk (wRow n 0 n)).is_sorted = true := by
  rw [disk_state.is_sorted, decide_eq_true_eq, wRow_dark_count, mk_colors]
  constructor
  · intro i hi
    rw [wRow_getD_lt n 0 n i DISK_LIGHT hi]
    simp
  · intro i h1 h2
    rw [wRow_getD_hi n 0 n i DISK_LIGHT (by omega) (by omega)]
    simp

lemma sorted_row_eq_wRow (s : disk_state) (hev : s.total_count % 2 = 0)
    (hs : s.is_sorted = true) :
    s._colors = wRow (s.total_count / 2) 0 (s.total_count / 2) := by
  rw [disk_state.is_sorted, decide_eq_true_eq] at hs
  obtain ⟨h1, h2⟩ := hs
  have hdc : s.dark_count = s.total_count / 2 := rfl
  rw [hdc] at h1 h2
  have hlen : s._colors.length = s.total_count := rfl
  apply List.ext_getElem
  · rw [hlen, wRow_length]
    omega
  · intro i hi1 hi2
    rw [← List.getD_eq_getElem s._colors DISK_LIGHT hi1,
      ← List.getD_eq_getElem (wRow (s.total_count / 2) 0 (s.total_count / 2))
        DISK_LIGHT hi2]
    have hi : i < s.total_count := by rw [hlen] at hi1; exact hi1
    by_cases hia : i < s.total_count / 2
    · rw [wRow_getD_lt _ 0 _ i DISK_LIGHT hia]
      exact light_of_ne_dark _ (h1 i hia)
    · rw [wRow_getD_hi _ 0 _ i DISK_LIGHT (by omega) (by omega)]
      exact dark_of_ne_light _ (h2 i (by omega) (by omega))

lemma altGo_sorted (k : Nat) : ∀ (i n : Nat), 1 ≤ n →
    altGo n k i (wRow n 0 n) = (wRow n 0 n, 0) := by
  induction k with
  | zero => intro i n _; rfl
  | succ k ih =>
    intro i n hn
    rw [altGo]
    by_cases hp : i % 2 = 0
    · rw [if_pos hp]
      by_cases hq : n % 2 = 0
      · rw [evenPass_wRow_zero n n n (by omega) hq (by omega)]
        simp [ih (i + 1) n hn]
      · rw [evenPass_wRow_mismatch n n 0 n (by omega) (by omega)]
        simp [ih (i + 1) n hn]
    · rw [if_neg hp]
      by_cases hq : n % 2 = 1
      · rw [oddPass_wRow_zero n n n hq (by omega)]
        simp [ih (i + 1) n hn]
      · rw [oddPass_wRow_mismatch n n 0 n (by omega) (by omega)]
        simp [ih (i + 1) n hn]

lemma lawnLoop_sorted (fuel n : Nat) (hn : 1 ≤ n) :
    (lawnLoop n fuel (wRow n 0 n)).1 = wRow n 0 n ∧
    (lawnLoop n fuel (wRow n 0 n)).2.1 = 0 := by
  cases fuel with
  | zero => simp [lawnLoop]
  | succ fuel =>
    rw [lawnLoop, doublePass_wRow_zero n n hn (by omega)]
    simp

/-!
## The two algorithms on the canonical initialized row
-/

lemma sort_alternate_init (n : Nat) (hn : 1 ≤ n) :
    sort_alternate (mkInit n) = ⟨⟨wRow n 0 n⟩, tri (n - 1)⟩ := by
  obtain ⟨m, rfl⟩ : ∃ m, n = m + 1 := ⟨n - 1, by omega⟩
  have hcols : (mkInit (m + 1))._colors = wRow 1 m 1 := by
    rw [mkInit_colors, altLD_as_wRow]
  have htot : (mkInit (m + 1)).total_count = 2 * (m + 1) := mkInit_total (m + 1)
  have hr := altGo_wRow (m + 1) 1 (m + 1) (by omega) (by omega) (by omega)
  rw [show (m : Nat) + 1 - 1 = m from by omega] at hr
  rw [sort_alternate, htot, show 2 * (m + 1) / 2 = m + 1 from by omega,
    if_neg (by omega), hcols, altGo, if_pos (by omega),
    evenPass_wRow_mismatch (m + 1) 1 m 1 (by omega) (by omega)]
  simp [hr]

lemma sort_lawnmower_init (n : Nat) (hn : 1 ≤ n) :
    sort_lawnmower (mkInit n) = ⟨⟨wRow n 0 n⟩, tri (n - 1)⟩ ∧
      lawn_passes (mkInit n) = n / 2 := by
  obtain ⟨m, rfl⟩ : ∃ m, n = m + 1 := ⟨n - 1, by omega⟩
  have hcols : (mkInit (m + 1))._colors = wRow 1 m 1 := by
    rw [mkInit_colors, altLD_as_wRow]
  have htot : (mkInit (m + 1)).total_count = 2 * (m + 1) := mkInit_total (m + 1)
  have hloop := lawnLoop_wRow ((m + 1) / 2) 1 m (by omega) (by omega)
  rw [show (1 : Nat) + m = m + 1 from by omega] at hloop
  constructor
  · rw [sort_lawnmower, htot, show 2 * (m + 1) / 2 = m + 1 from by omega, hcols, hloop]
    simp
  · rw [lawn_passes, htot, show 2 * (m + 1) / 2 = m + 1 from by omega, hcols, hloop]

/-!
## Pass-count structure of the lawnmower loop
-/

lemma lawnLoop_spec (fuel : Nat) : ∀ (n : Nat) (s : Row),
    (lawnLoop n fuel s).2.2 ≤ fuel ∧
    (lawnLoop n fuel s).1 = dpIter n (lawnLoop n fuel s).2.2 s ∧
    (1 ≤ fuel → 1 ≤ (lawnLoop n fuel s).2.2) ∧
    ((lawnLoop n fuel s).2.2 < fuel →
      (doublePass n (dpIter n ((lawnLoop n fuel s).2.2 - 1) s)).2 = 0) ∧
    (∀ k, k + 1 < (lawnLoop n fuel s).2.2 → (doublePass n (dpIter n k s)).2 ≠ 0) := by
  induction fuel with
  | zero =>
    intro n s
    refine ⟨Nat.le_refl 0, rfl, by omega, by omega, ?_⟩
    intro k hk
    have hk2 : k + 1 < 0 := hk
    omega
  | succ fuel ih =>
    intro n s
    rw [lawnLoop]
    by_cases h0 : (doublePass n s).2 = 0
    · rw [if_pos h0]
      refine ⟨?_, ?_, ?_, ?_, ?_⟩
      · show (1 : Nat) ≤ fuel + 1
        omega
      · show (doublePass n s).1 = dpIter n 1 s
        simp [dpIter]
      · intro _
        show (1 : Nat) ≤ 1
        omega
      · intro _
        show (doublePass n (dpIter n 0 s)).2 = 0
        exact h0
      · intro k hk
        have hk2 : k + 1 < 1 := hk
        omega
    · rw [if_neg h0]
      obtain ⟨ih1, ih2, ih3, ih4, ih5⟩ := ih n (doublePass n s).1
      refine ⟨?_, ?_, ?_, ?_, ?_⟩
      · show (lawnLoop n fuel (doublePass n s).1).2.2 + 1 ≤ fuel + 1
        omega
      · show (lawnLoop n fuel (doublePass n s).1).1 =
          dpIter n ((lawnLoop n fuel (doublePass n s).1).2.2 + 1) s
        rw [dpIter]
        exact ih2
      · intro _
        show (1 : Nat) ≤ (lawnLoop n fuel (doublePass n s).1).2.2 + 1
        omega
      · intro hlt
        have hlt2 : (lawnLoop n fuel (doublePass n s).1).2.2 + 1 < fuel + 1 := hlt
        have hne : (lawnLoop n fuel (doublePass n s).1).2.2 < fuel := by omega
        have hge : 1 ≤ (lawnLoop n fuel (doublePass n s).1).2.2 := ih3 (by omega)
        show (doublePass n
          (dpIter n ((lawnLoop n fuel (doublePass n s).1).2.2 + 1 - 1) s)).2 = 0
        obtain ⟨q, hq⟩ : ∃ q, (lawnLoop n fuel (doublePass n s).1).2.2 = q + 1 :=
          ⟨(lawnLoop n fuel (doublePass n s).1).2.2 - 1, by omega⟩
        rw [show (lawnLoop n fuel (doublePass n s).1).2.2 + 1 - 1 =
          (lawnLoop n fuel (doublePass n s).1).2.2 from by omega, hq, dpIter]
        have := ih4 hne
        rw [hq] at this
        simpa using this
      · intro k hk
        have hk2 : k + 1 < (lawnLoop n fuel (doublePass n s).1).2.2 + 1 := hk
        cases k with
        | zero =>
          show (doublePass n (dpIter n 0 s)).2 ≠ 0
          exact h0
        | succ k2 =>
          show (doublePass n (dpIter n (k2 + 1) s)).2 ≠ 0
          rw [dpIter]
          exact ih5 k2 (by omega)

/-!
## `std::equal` prefix semantics
-/

lemma stdEqual_spec (x : Row) : ∀ (y : Row), x.length ≤ y.length →
    stdEqual x y ≠ none ∧
    (stdEqual x y = some true ↔
      ∀ i, i < x.length → x.getD i DISK_LIGHT = y.getD i DISK_LIGHT) := by
  induction x with
  | nil =>
    intro y _
    constructor
    · simp [stdEqual]
    · simp [stdEqual]
  | cons a xs ih =>
    intro y hlen
    cases y with
    | nil => simp at hlen
    | cons b ys =>
      have hlen2 : xs.length ≤ ys.length := by simpa using hlen
      obtain ⟨ihn, ihe⟩ := ih ys hlen2
      by_cases hab : a = b
      · subst hab
        rw [stdEqual, if_pos rfl]
        refine ⟨ihn, ?_⟩
        rw [ihe]
        constructor
        · intro h i hi
          cases i with
          | zero => simp
          | succ i2 => simpa using h i2 (by simpa using hi)
        · intro h i hi
          have := h (i + 1) (by simpa using hi)
          simpa using this
      · rw [stdEqual, if_neg hab]
        refine ⟨by simp, ?_⟩
        constructor
        · intro h
          simp at h
        · intro h
          have := h 0 (by simp)
          simp at this
          exact absurd this hab

/-!
## `swap` helpers
-/

lemma listSwap_count (l : Row) (j : Nat) (h : j + 1 < l.length) (c : disk_color) :
    (listSwap l j).count c = l.count c := by
  obtain ⟨pre, x, y, suf, rfl, hl⟩ := exists_two_split l j h
  rw [← hl, listSwap_append]
  simp [List.count_append, List.count_cons]
  omega

lemma swap_ok (s : disk_state) (i : Nat) (h : i + 1 < s.total_count) :
    s.swap i = .ok ⟨listSwap s._colors i⟩ := by
  rw [disk_state.swap, if_pos (by simp [disk_state.is_index]; omega),
    if_pos (by simp [disk_state.is_index]; omega)]

lemma swap_err_iff (s : disk_state) (i : Nat) :
    s.swap i = .error .indexOutOfRange ↔
      ¬(i < s.total_count ∧ i + 1 < s.total_count) := by
  rw [disk_state.swap]
  by_cases h1 : i < s.total_count
  · by_cases h2 : i + 1 < s.total_count
    · rw [if_pos (by simp [disk_state.is_index]; omega),
        if_pos (by simp [disk_state.is_index]; omega)]
      simp [h1, h2]
    · rw [if_pos (by simp [disk_state.is_index]; omega),
        if_neg (by simp [disk_state.is_index]; omega)]
      simp [h1, h2]
  · rw [if_neg (by simp [disk_state.is_index]; omega)]
    simp [h1]

lemma swapSeq_preserves (l : List Nat) : ∀ (s s2 : disk_state),
    swapSeq s l = .ok s2 →
    s2._colors.length = s._colors.length ∧
    (∀ c, s2._colors.count c = s._colors.count c) := by
  induction l with
  | nil =>
    intro s s2 h
    rw [swapSeq] at h
    injection h with h2
    subst h2
    exact ⟨rfl, fun _ => rfl⟩
  | cons i rest ih =>
    intro s s2 h
    rw [swapSeq] at h
    cases hs : s.swap i with
    | error e =>
      rw [hs] at h
      exact Except.noConfusion h
    | ok s1 =>
      rw [hs] at h
      have h' : swapSeq s1 rest = .ok s2 := h
      have hval : i + 1 < s.total_count ∧ s1 = ⟨listSwap s._colors i⟩ := by
        rw [disk_state.swap] at hs
        by_cases h1 : i < s.total_count
        · by_cases h2 : i + 1 < s.total_count
          · rw [if_pos (by simp [disk_state.is_index]; omega),
              if_pos (by simp [disk_state.is_index]; omega)] at hs
            injection hs with h3
            exact ⟨h2, h3.symm⟩
          · rw [if_pos (by simp [disk_state.is_index]; omega),
              if_neg (by simp [disk_state.is_index]; omega)] at hs
            simp at hs
        · rw [if_neg (by simp [disk_state.is_index]; omega)] at hs
          simp at hs
      obtain ⟨hvi, rfl⟩ := hval
      obtain ⟨ih1, ih2⟩ := ih _ s2 h'
      constructor
      · rw [ih1, mk_colors, listSwap_length]
      · intro c
        rw [ih2 c, mk_colors, listSwap_count s._colors i hvi c]

/-!
## The constructed row is in the canonical initialized layout
-/

lemma mkInit_is_initialized (k : Nat) : (mkInit k).is_initialized = true := by
  rw [disk_state.is_initialized, decide_eq_true_eq]
  intro i hi
  rw [mkInit_total] at hi
  rw [mkInit_colors]
  constructor
  · intro hpar
    rw [altLD_getD k i DISK_LIGHT (by omega), if_pos hpar]
    simp
  · intro hpar
    rw [altLD_getD k i DISK_LIGHT (by omega), if_neg hpar]
    simp

/-!
## The claims
-/

/-- C1: for every `n ≥ 1`, applying `sort_alternate` or `sort_lawnmower` to
the canonical initialized row of `2n` disks yields a result whose final row
satisfies `is_sorted() = true` (indices `[0, n)` all light, `[n, 2n)` all
dark). -/
theorem claim_sort_init_is_sorted (n : Nat) (hn : 1 ≤ n) :
    (sort_alternate (mkInit n)).after.is_sorted = true ∧
    (sort_lawnmower (mkInit n)).after.is_sorted = true := by
  constructor
  · rw [sort_alternate_init n hn]
    exact wRow_state_sorted n
  · rw [(sort_lawnmower_init n hn).1]
    exact wRow_state_sorted n

/-- Witness for C1 at `n = 3`. -/
theorem claim_sort_init_is_sorted_witness :
    1 ≤ 3 ∧ ((sort_alternate (mkInit 3)).after.is_sorted = true ∧
      (sort_lawnmower (mkInit 3)).after.is_sorted = true) :=
  ⟨by decide, claim_sort_init_is_sorted 3 (by decide)⟩

/-- C2: for every canonical initialized row of `2n` disks (`n ≥ 1`),
`sort_alternate` and `sort_lawnmower` return equal final rows (value
equality of the underlying colour sequences, hence equal length and
identical colour at every index). -/
theorem claim_final_rows_equal (n : Nat) (hn : 1 ≤ n) :
    (sort_alternate (mkInit n)).after = (sort_lawnmower (mkInit n)).after := by
  rw [sort_alternate_init n hn, (sort_lawnmower_init n hn).1]

/-- Witness for C2 at `n = 4`. -/
theorem claim_final_rows_equal_witness :
    1 ≤ 4 ∧ (sort_alternate (mkInit 4)).after = (sort_lawnmower (mkInit 4)).after :=
  ⟨by decide, claim_final_rows_equal 4 (by decide)⟩

/-- Counterexample to C3: on the unsorted row dark-light (`n = 1`),
`sort_lawnmower` executes `0` double-passes, not the claimed `⌈1/2⌉ = 1`,
although early termination cannot have fired (the first double-pass would
have performed a swap); the row is returned unchanged.  The C++ bound
`std::ceil((int)n / 2)` divides in the integers first, so it is `⌊n/2⌋`,
not `⌈n/2⌉`. -/
theorem claim_lawnmower_passes_counterexample :
    lawn_passes ⟨[DISK_DARK, DISK_LIGHT]⟩ = 0 ∧
    lawn_passes ⟨[DISK_DARK, DISK_LIGHT]⟩ ≠ 1 ∧
    (doublePass 1 [DISK_DARK, DISK_LIGHT]).2 ≠ 0 ∧
    sort_lawnmower ⟨[DISK_DARK, DISK_LIGHT]⟩ =
      ⟨⟨[DISK_DARK, DISK_LIGHT]⟩, 0⟩ := by
  decide

/-- C3 as amended: for every input row of `2n` disks, `sort_lawnmower` runs
up to `⌊n/2⌋` double-passes (the code's `std::ceil((int)n / 2)` applies
`ceil` to an already-truncated integer quotient); unless early termination
fires it performs exactly `⌊n/2⌋` double-passes, it stops immediately after
any double-pass in which neither sweep swapped, and every earlier
double-pass did swap. -/
theorem claim_lawnmower_pass_structure (s : disk_state) :
    lawn_passes s ≤ s.total_count / 2 / 2 ∧
    ((∀ k, k < s.total_count / 2 / 2 →
        (doublePass (s.total_count / 2)
          (dpIter (s.total_count / 2) k s._colors)).2 ≠ 0) →
      lawn_passes s = s.total_count / 2 / 2) ∧
    (lawn_passes s < s.total_count / 2 / 2 →
      1 ≤ lawn_passes s ∧
      (doublePass (s.total_count / 2)
        (dpIter (s.total_count / 2) (lawn_passes s - 1) s._colors)).2 = 0) ∧
    (∀ k, k + 1 < lawn_passes s →
      (doublePass (s.total_count / 2) (dpIter (s.total_count / 2) k s._colors)).2 ≠ 0) := by
  obtain ⟨h1, h2, h3, h4, h5⟩ :=
    lawnLoop_spec (s.total_count / 2 / 2) (s.total_count / 2) s._colors
  have hlp : lawn_passes s =
      (lawnLoop (s.total_count / 2) (s.total_count / 2 / 2) s._colors).2.2 := rfl
  refine ⟨by rw [hlp]; exact h1, ?_, ?_, ?_⟩
  · intro hall
    by_contra hne
    have hlt : lawn_passes s < s.total_count / 2 / 2 := by
      rw [hlp] at hne ⊢
      omega
    have hz := h4 (by rw [hlp] at hlt; exact hlt)
    have hge : 1 ≤ lawn_passes s := by
      rw [hlp]
      exact h3 (by omega)
    have hz2 : (doublePass (s.total_count / 2)
        (dpIter (s.total_count / 2) (lawn_passes s - 1) s._colors)).2 = 0 := by
      rw [hlp]
      exact hz
    exact hall (lawn_passes s - 1) (by omega) hz2
  · intro hlt
    refine ⟨by rw [hlp]; exact h3 (by omega), ?_⟩
    rw [hlp]
    exact h4 (by rw [hlp] at hlt; exact hlt)
  · intro k hk
    exact h5 k (by rw [hlp] at hk; exact hk)

/-- Witness for C3's amended theorem at `mkInit 2`: every double-pass below
the bound swaps, so exactly `⌊2/2⌋ = 1` double-pass runs. -/
theorem claim_lawnmower_pass_structure_witness :
    lawn_passes (mkInit 2) = (mkInit 2).total_count / 2 / 2 :=
  (claim_lawnmower_pass_structure (mkInit 2)).2.1 (by decide)

/-- C4: any row of even positive length that is already sorted is a fixed
point of both algorithms, with swap count `0`. -/
theorem claim_sorted_input_fixed (s : disk_state) (hev : s.total_count % 2 = 0)
    (hpos : 0 < s.total_count) (hs : s.is_sorted = true) :
    sort_alternate s = ⟨s, 0⟩ ∧ sort_lawnmower s = ⟨s, 0⟩ := by
  have hn : 1 ≤ s.total_count / 2 := by omega
  have hcols := sorted_row_eq_wRow s hev hs
  constructor
  · rw [sort_alternate, if_neg (by omega), hcols,
      altGo_sorted (s.total_count / 2 + 1) 0 (s.total_count / 2) hn]
    show (⟨⟨wRow (s.total_count / 2) 0 (s.total_count / 2)⟩, 0⟩ : sorted_disks) = ⟨s, 0⟩
    rw [← hcols]
  · rw [sort_lawnmower, hcols]
    obtain ⟨hL1, hL2⟩ :=
      lawnLoop_sorted (s.total_count / 2 / 2) (s.total_count / 2) hn
    rw [hL1, hL2]
    show (⟨⟨wRow (s.total_count / 2) 0 (s.total_count / 2)⟩, 0⟩ : sorted_disks) = ⟨s, 0⟩
    rw [← hcols]

/-- Witness for C4 at the sorted two-disk row light-dark. -/
theorem claim_sorted_input_fixed_witness :
    sort_alternate (mkInit 1) = ⟨mkInit 1, 0⟩ ∧
    sort_lawnmower (mkInit 1) = ⟨mkInit 1, 0⟩ :=
  claim_sorted_input_fixed (mkInit 1) (by decide) (by decide) (by decide)

/-- Counterexample to C5: `operator==` is `std::equal` over the left row
only, so the two-disk row equals the four-disk row that extends it, even
though their lengths differ — equality does *not* hold only for equal
lengths. -/
theorem claim_equality_counterexample :
    (mkInit 1).eqOp (mkInit 2) = some true ∧
    (mkInit 1).total_count ≠ (mkInit 2).total_count := by
  decide

/-- C5 as amended: the equality operation compares only the first
`a.total_count()` positions.  Whenever the right row is at least as long as
the left, it is defined and returns `true` iff the two rows agree at every
index below `a.total_count()`; lengths are never compared (and when the
right row is a strictly shorter prefix-match, the C++ reads past its end —
undefined behaviour, `none` in this model). -/
theorem claim_equality_prefix_semantics (a b : disk_state)
    (h : a.total_count ≤ b.total_count) :
    a.eqOp b ≠ none ∧
    (a.eqOp b = some true ↔
      ∀ i, i < a.total_count →
        a._colors.getD i DISK_LIGHT = b._colors.getD i DISK_LIGHT) :=
  stdEqual_spec a._colors b._colors h

/-- Witness for C5's amended theorem. -/
theorem claim_equality_prefix_semantics_witness :
    (mkInit 1).eqOp (mkInit 2) ≠ none :=
  (claim_equality_prefix_semantics (mkInit 1) (mkInit 2) (by decide)).1

/-- C6: `construct(n)` fails with `ConstructionError` for every `n ≤ 0`,
and for every `n ≥ 1` it produces a row of length `2n` in the canonical
initialized layout. -/
theorem claim_construct_spec (n : Int) :
    (n ≤ 0 → construct n = .error .constructionError) ∧
    (1 ≤ n → construct n = .ok (mkInit n.toNat) ∧
      (mkInit n.toNat).total_count = 2 * n.toNat ∧
      (mkInit n.toNat).is_initialized = true) := by
  constructor
  · intro h
    rw [construct, if_neg (by omega)]
  · intro h
    exact ⟨by rw [construct, if_pos (by omega)], mkInit_total _, mkInit_is_initialized _⟩

/-- Witness for C6 at `n = -1, 0, 3`. -/
theorem claim_construct_spec_witness :
    construct (-1) = .error DiskError.constructionError ∧
    construct 0 = .error DiskError.constructionError ∧
    construct 3 = .ok (mkInit (Int.toNat 3)) ∧
    (mkInit (Int.toNat 3)).total_count = 2 * Int.toNat 3 ∧
    (mkInit (Int.toNat 3)).is_initialized = true := by
  have h3 := (claim_construct_spec 3).2 (by decide)
  exact ⟨(claim_construct_spec (-1)).1 (by decide), (claim_construct_spec 0).1 (by decide),
    h3.1, h3.2.1, h3.2.2⟩

/-- C7: `get(i)` returns the colour at `i` when `i < total_count()` and
fails with `IndexOutOfRange` otherwise; `swap(left)` fails with
`IndexOutOfRange` exactly when `left` or `left + 1` is out of range — in
particular on a row of length 4, `swap(3)` and `get(4)` fail. -/
theorem claim_get_swap_range (s : disk_state) (i : Nat) :
    (i < s.total_count → s.get i = .ok (s._colors.getD i DISK_LIGHT)) ∧
    (s.total_count ≤ i → s.get i = .error .indexOutOfRange) ∧
    (s.swap i = .error .indexOutOfRange ↔
      ¬(i < s.total_count ∧ i + 1 < s.total_count)) ∧
    (mkInit 2).swap 3 = .error .indexOutOfRange ∧
    (mkInit 2).get 4 = .error .indexOutOfRange := by
  refine ⟨?_, ?_, swap_err_iff s i, by decide, by decide⟩
  · intro h
    rw [disk_state.get, if_pos (by simp [disk_state.is_index]; omega)]
  · intro h
    rw [disk_state.get, if_neg (by simp [disk_state.is_index]; omega)]

/-- Witness for C7 at index 1 of the four-disk initialized row. -/
theorem claim_get_swap_range_witness :
    (mkInit 2).get 1 = .ok DISK_DARK := by
  have h := (claim_get_swap_range (mkInit 2) 1).1 (by decide)
  rw [h]
  decide

/-- C8: a valid `swap(left)` exchanges the colours at `left` and `left + 1`,
leaves every other slot unchanged, and preserves `total_count`,
`light_count`, `dark_count` and the multiset of colours; hence after any
finite sequence of successful swaps the counts equal their values before. -/
theorem claim_swap_frame (s : disk_state) (left : Nat) (l : List Nat) :
    (left + 1 < s.total_count →
      s.swap left = .ok ⟨listSwap s._colors left⟩ ∧
      (listSwap s._colors left).getD left DISK_LIGHT =
        s._colors.getD (left + 1) DISK_LIGHT ∧
      (listSwap s._colors left).getD (left + 1) DISK_LIGHT =
        s._colors.getD left DISK_LIGHT ∧
      (∀ j, j ≠ left → j ≠ left + 1 →
        (listSwap s._colors left).getD j DISK_LIGHT = s._colors.getD j DISK_LIGHT) ∧
      (disk_state.mk (listSwap s._colors left)).total_count = s.total_count ∧
      (disk_state.mk (listSwap s._colors left)).light_count = s.light_count ∧
      (disk_state.mk (listSwap s._colors left)).dark_count = s.dark_count ∧
      (∀ c, (listSwap s._colors left).count c = s._colors.count c)) ∧
    (∀ s2, swapSeq s l = .ok s2 →
      s2.light_count = s.light_count ∧ s2.dark_count = s.dark_count ∧
      (∀ c, s2._colors.count c = s._colors.count c)) := by
  constructor
  · intro h
    obtain ⟨pre, x, y, suf, hdec, hl⟩ := exists_two_split s._colors left h
    have hswap : listSwap s._colors left = pre ++ y :: x :: suf := by
      rw [hdec, ← hl, listSwap_append]
    have htot : (disk_state.mk (listSwap s._colors left)).total_count = s.total_count := by
      rw [disk_state.total_count, disk_state.total_count, mk_colors, listSwap_length]
    refine ⟨swap_ok s left h, ?_, ?_, ?_, htot, ?_, ?_, fun c => listSwap_count _ _ h c⟩
    · have e1 : (pre ++ y :: x :: suf).getD pre.length DISK_LIGHT = y := by
        simpa using getD_append_add pre (y :: x :: suf) 0 DISK_LIGHT
      have e2 : (pre ++ x :: y :: suf).getD (pre.length + 1) DISK_LIGHT = y := by
        simpa using getD_append_add pre (x :: y :: suf) 1 DISK_LIGHT
      rw [hswap, hdec, ← hl, e1, e2]
    · have e1 : (pre ++ y :: x :: suf).getD (pre.length + 1) DISK_LIGHT = x := by
        simpa using getD_append_add pre (y :: x :: suf) 1 DISK_LIGHT
      have e2 : (pre ++ x :: y :: suf).getD pre.length DISK_LIGHT = x := by
        simpa using getD_append_add pre (x :: y :: suf) 0 DISK_LIGHT
      rw [hswap, hdec, ← hl, e1, e2]
    · intro j hj1 hj2
      rw [hswap, hdec]
      rw [← hl] at hj1 hj2
      by_cases hlt : j < pre.length
      · rw [getD_append_lt _ _ _ _ hlt, getD_append_lt _ _ _ _ hlt]
      · obtain ⟨k, rfl⟩ : ∃ k, j = pre.length + (k + 2) :=
          ⟨j - pre.length - 2, by omega⟩
        rw [getD_append_add, getD_append_add]
        simp
    · rw [disk_state.light_count, disk_state.light_count, htot]
    · rw [disk_state.dark_count, disk_state.dark_count, disk_state.light_count,
        disk_state.light_count, htot]
  · intro s2 hseq
    obtain ⟨hlen, hcnt⟩ := swapSeq_preserves l s s2 hseq
    have hl : s2.light_count = s.light_count := by
      rw [disk_state.light_count, disk_state.light_count, disk_state.total_count,
        disk_state.total_count, hlen]
    exact ⟨hl, by rw [disk_state.dark_count, disk_state.dark_count, hl], hcnt⟩

/-- Witness for C8 at `left = 1` on the four-disk initialized row. -/
theorem claim_swap_frame_witness :
    (mkInit 2).swap 1 = .ok ⟨listSwap (mkInit 2)._colors 1⟩ ∧
    (∀ c, (listSwap (mkInit 2)._colors 1).count c = (mkInit 2)._colors.count c) := by
  have h := (claim_swap_frame (mkInit 2) 1 []).1 (by decide)
  exact ⟨h.1, h.2.2.2.2.2.2.2⟩

/-- C9: on the canonical initialized row of `2n` disks the two algorithms
both perform exactly `n * (n - 1) / 2` swaps (in particular the same
number); for `n = 2` both render the final row as "L L D D" with swap
count 1. -/
theorem claim_swap_counts (n : Nat) (hn : 1 ≤ n) :
    (sort_alternate (mkInit n)).swap_count = n * (n - 1) / 2 ∧
    (sort_lawnmower (mkInit n)).swap_count = n * (n - 1) / 2 ∧
    (sort_alternate (mkInit n)).swap_count = (sort_lawnmower (mkInit n)).swap_count ∧
    (sort_alternate (mkInit 2)).after.to_string = "L L D D" ∧
    (sort_lawnmower (mkInit 2)).after.to_string = "L L D D" ∧
    (sort_alternate (mkInit 2)).swap_count = 1 ∧
    (sort_lawnmower (mkInit 2)).swap_count = 1 := by
  have htri : tri (n - 1) = n * (n - 1) / 2 := by
    rw [tri_closed, show n - 1 + 1 = n from by omega]
  have ha : (sort_alternate (mkInit n)).swap_count = n * (n - 1) / 2 := by
    rw [sort_alternate_init n hn]
    exact htri
  have hb : (sort_lawnmower (mkInit n)).swap_count = n * (n - 1) / 2 := by
    rw [(sort_lawnmower_init n hn).1]
    exact htri
  refine ⟨ha, hb, by rw [ha, hb], ?_, ?_, by decide, by decide⟩
  · rfl
  · rfl

/-- Witness for C9 at `n = 5`. -/
theorem claim_swap_counts_witness :
    1 ≤ 5 ∧ (sort_alternate (mkInit 5)).swap_count = 5 * (5 - 1) / 2 ∧
      (sort_lawnmower (mkInit 5)).swap_count = 5 * (5 - 1) / 2 :=
  ⟨by decide, ((claim_swap_counts 5 (by decide)).1), ((claim_swap_counts 5 (by decide)).2.1)⟩

/-- C10: on every row of total length 2 the lawnmower outer bound
`⌊1/2⌋ = 0` makes the loop body unreachable: zero double-passes run and the
row (even the unsorted dark-light row) is returned unchanged with swap
count 0. -/
theorem claim_lawnmower_two_disks (s : disk_state) (h : s.total_count = 2) :
    sort_lawnmower s = ⟨s, 0⟩ ∧ lawn_passes s = 0 := by
  have hn : s.total_count / 2 = 1 := by omega
  constructor
  · rw [sort_lawnmower, hn]
    rfl
  · rw [lawn_passes, hn]
    rfl

/-- Witness for C10 at the unsorted dark-light row. -/
theorem claim_lawnmower_two_disks_witness :
    sort_lawnmower ⟨[DISK_DARK, DISK_LIGHT]⟩ = ⟨⟨[DISK_DARK, DISK_LIGHT]⟩, 0⟩ ∧
    lawn_passes ⟨[DISK_DARK, DISK_LIGHT]⟩ = 0 :=
  claim_lawnmower_two_disks ⟨[DISK_DARK, DISK_LIGHT]⟩ (by decide)
